import Mathlib

/-!
Shallow embedding of the COVID-19 dashboard ETL pipeline
(`application/covid_dash_app/etl.py`) and proofs of the spec claims about it.

DataFrame cells are IEEE floats in the source (pandas); they are modelled by
`FVal`: a rational number, NaN (which pandas also uses for missing values
introduced by left joins), or a signed infinity. Tables are lists of records.
-/

/-- Model of a pandas float cell: NaN (also the missing-value marker),
signed infinities, or a finite value modelled as a rational. -/
inductive FVal where
  | nan : FVal
  | inf : FVal
  | ninf : FVal
  | num : ℚ → FVal
deriving DecidableEq

/-- IEEE-style addition on `FVal` (as performed elementwise by pandas). -/
def FVal.add : FVal → FVal → FVal
  | nan, _ => nan
  | _, nan => nan
  | inf, ninf => nan
  | ninf, inf => nan
  | inf, _ => inf
  | _, inf => inf
  | ninf, _ => ninf
  | _, ninf => ninf
  | num a, num b => num (a + b)

/-- IEEE-style subtraction on `FVal`. -/
def FVal.sub : FVal → FVal → FVal
  | nan, _ => nan
  | _, nan => nan
  | inf, inf => nan
  | ninf, ninf => nan
  | inf, _ => inf
  | _, inf => ninf
  | ninf, _ => ninf
  | _, ninf => inf
  | num a, num b => num (a - b)

/-- IEEE-style division on `FVal`: `0/0` is NaN, `x/0` for nonzero finite `x`
is a signed infinity, NaN propagates. This is what numpy does elementwise
(the division never raises). -/
def FVal.div : FVal → FVal → FVal
  | nan, _ => nan
  | _, nan => nan
  | inf, inf => nan
  | inf, ninf => nan
  | ninf, inf => nan
  | ninf, ninf => nan
  | inf, num b => if b < 0 then ninf else inf
  | ninf, num b => if b < 0 then inf else ninf
  | num _, inf => num 0
  | num _, ninf => num 0
  | num a, num b =>
      if b = 0 then (if a = 0 then nan else if 0 < a then inf else ninf)
      else num (a / b)

/-- Floor of a rational, written directly with integer floor division so that
it evaluates by kernel reduction. -/
def ratFloor (q : ℚ) : ℤ := q.num.fdiv q.den

/-- Round-half-to-even on rationals, the rounding mode used by numpy. -/
def roundHalfEven (q : ℚ) : ℤ :=
  if q - ratFloor q < 1 / 2 then ratFloor q
  else if 1 / 2 < q - ratFloor q then ratFloor q + 1
  else if ratFloor q % 2 = 0 then ratFloor q else ratFloor q + 1

/-- Model of `np.round(x, d)`: round a finite value to `d` decimal places;
NaN and infinities are returned unchanged. -/
def roundTo (d : ℕ) : FVal → FVal
  | FVal.num q => FVal.num ((roundHalfEven (q * 10 ^ d) : ℚ) / 10 ^ d)
  | v => v

/-- Model of `fillna(0)` on a single cell: NaN becomes 0, anything else kept. -/
def fillna0 : FVal → FVal
  | FVal.nan => FVal.num 0
  | v => v

/-- Model of the pandas group sum (`skipna` default): fold addition over the
values, NaN entries contribute nothing, the empty sum is 0. -/
def gsum (l : List FVal) : FVal :=
  l.foldl (fun acc v => match v with | FVal.nan => acc | _ => FVal.add acc v)
    (FVal.num 0)

/-- One row of a raw wide-format CSV (`pd.read_csv` result): the four
identifying columns `Province/State`, `Country/Region`, `Lat`, `Long` and one
cell per date column. -/
structure RawRow where
  province : String
  country : String
  lat : FVal
  lon : FVal
  cells : List FVal
deriving DecidableEq

/-- A raw wide table: the list of date column labels and the data rows. -/
structure RawTable where
  dates : List String
  rows : List RawRow
deriving DecidableEq

/-- One record of the long/tidy table produced by `clean_data` (melt). -/
structure LongRow where
  province : String
  country : String
  lat : FVal
  lon : FVal
  date : String
  cases : FVal
deriving DecidableEq

/-- Embedding of `clean_data`: `df_raw.melt(id_vars=[Province/State,
Country/Region, Lat, Long], value_name=Cases, var_name=Date)`. pandas melt
stacks the value columns one after the other: for each date column (in column
order) it emits one record per input row, copying the identifying columns
verbatim. -/
def clean_data (t : RawTable) : List LongRow :=
  t.dates.enum.flatMap fun jd =>
    t.rows.map fun r =>
      ⟨r.province, r.country, r.lat, r.lon, jd.2, r.cells.getD jd.1 FVal.nan⟩

/-- A row keyed by (country, parsed date) holding one metric value; used for
both the per-country cumulative tables and the daily-delta tables. The date is
the comparable value produced by the date parser (`pd.to_datetime`). -/
structure KRow where
  country : String
  date : ℕ
  value : FVal
deriving DecidableEq

/-- Key projection for `KRow`. -/
def keyOf (r : KRow) : String × ℕ := (r.country, r.date)

/-- The distinct (country, date-string) groups of a long table, as formed by
`groupby([Country/Region, Date])`. -/
def groupKeys (rows : List LongRow) : List (String × String) :=
  (rows.map fun r => (r.country, r.date)).dedup

/-- The group sum for one (country, date-string) key: sum of the `Cases`
cells of all records of that group, in row order. -/
def groupSum (rows : List LongRow) (k : String × String) : FVal :=
  gsum ((rows.filter fun r => decide (r.country = k.1 ∧ r.date = k.2)).map
    fun r => r.cases)

/-- Ascending lexicographic comparison on (country, date), the sort key of
`sort_values([Country/Region, Date], ascending=True)`. -/
def keyLE (a b : KRow) : Bool :=
  decide (a.country < b.country) ||
    (decide (a.country = b.country) && decide (a.date ≤ b.date))

/-- Embedding of `country_data`: group the long table by (country, date), sum
the `Cases` column, parse the date level with the date parser, and sort
ascending by country then parsed date. (The column rename carries no data.) -/
def country_data (parse : String → ℕ) (rows : List LongRow) : List KRow :=
  ((groupKeys rows).map fun k =>
    (⟨k.1, parse k.2, groupSum rows k⟩ : KRow)).mergeSort keyLE

/-- Last stored value for a country in the running-state list used to model
the per-group positional diff. -/
def lookupLast (m : List (String × FVal)) (c : String) : Option FVal :=
  (m.find? fun p => decide (p.1 = c)).map fun p => p.2

/-- The diff of one cell against the previous cell of the same group: NaN if
there is no previous row in the group (pandas `diff` first row), otherwise the
IEEE subtraction. -/
def diffVal : Option FVal → FVal → FVal
  | none, _ => FVal.nan
  | some p, v => FVal.sub v p

/-- Worker for `daily_data`: walk the rows in order keeping, per country, the
most recently seen cumulative value; each output cell is the diff against it,
with NaN filled by 0. -/
def daily_go (m : List (String × FVal)) : List KRow → List KRow
  | [] => []
  | r :: rs =>
      ⟨r.country, r.date, fillna0 (diffVal (lookupLast m r.country) r.value)⟩ ::
        daily_go ((r.country, r.value) :: m) rs

/-- Embedding of `daily_data`: `dfcountry.groupby(level=0).diff().fillna(0)`.
Level 0 of the index is the country, so the diff is taken against the previous
row of the same country (in the order of the input), and every NaN produced by
the diff is replaced by 0. The rename carries no data. -/
def daily_data (rows : List KRow) : List KRow := daily_go [] rows

/-- The values a left join on (country, date) contributes for one key of the
anchor table: the values of all matching rows of the joined table, or a single
NaN cell when the key is absent from it (`how=left` on the index). -/
def joinVals (tbl : List KRow) (k : String × ℕ) : List FVal :=
  let ms := tbl.filter fun r => decide (r.country = k.1 ∧ r.date = k.2)
  if ms.isEmpty then [FVal.nan] else ms.map fun r => r.value

/-- One row of the consolidated per-country-per-date table. -/
structure ConRow where
  country : String
  date : ℕ
  totalConfirmed : FVal
  dailyNewConfirmed : FVal
  dailyNewDeaths : FVal
  totalDeaths : FVal
  totalRecovered : FVal
  dailyNewRecovered : FVal
  totalActive : FVal
  shareRecovered : FVal
  deathToCases : FVal
deriving DecidableEq

/-- Key projection for `ConRow`. -/
def conKeyOf (r : ConRow) : String × ℕ := (r.country, r.date)

/-- Build one consolidated row from the anchor row and the five joined values,
computing the derived columns exactly as `get_datasets` does:
`Total Active Cases = Total Confirmed - Total Deaths - Total Recovered`,
`Share of Recovered - Closed Cases = np.round(tr / (tr + td), 2)`,
`Death to Cases Ratio = np.round(td / tc, 3)`. -/
def mkConRow (c : KRow) (v1 v2 v3 v4 v5 : FVal) : ConRow :=
  { country := c.country
    date := c.date
    totalConfirmed := c.value
    dailyNewConfirmed := v1
    dailyNewDeaths := v2
    totalDeaths := v3
    totalRecovered := v4
    dailyNewRecovered := v5
    totalActive := FVal.sub (FVal.sub c.value v3) v4
    shareRecovered := roundTo 2 (FVal.div v4 (FVal.add v4 v3))
    deathToCases := roundTo 3 (FVal.div v3 c.value) }

/-- Embedding of the consolidation step of `get_datasets`: successive
`pd.merge(..., how=left, left_index=True, right_index=True)` calls anchored on
the confirmed country table, joining in this order: daily-new-confirmed,
daily-new-deaths, deaths-total, recovered-total, daily-new-recovered; then the
derived columns are computed row-wise. -/
def consolidate (conf dconf ddth dth recov drecov : List KRow) : List ConRow :=
  conf.flatMap fun c0 =>
    (joinVals dconf (c0.country, c0.date)).flatMap fun v1 =>
      (joinVals ddth (c0.country, c0.date)).flatMap fun v2 =>
        (joinVals dth (c0.country, c0.date)).flatMap fun v3 =>
          (joinVals recov (c0.country, c0.date)).flatMap fun v4 =>
            (joinVals drecov (c0.country, c0.date)).map fun v5 =>
              mkConRow c0 v1 v2 v3 v4 v5

/-- One element of the commit list returned by the metadata endpoint; only the
committer date field is relevant, and it may be absent. -/
structure Commit where
  committerDate : Option String
deriving DecidableEq

/-- The effect environment of the pipeline: fetching a CSV resource
(`pd.read_csv(url)`), fetching the JSON commit list (`urllib` + `json`), and
parsing a date string (`pd.to_datetime`). Failures are `Except.error`. -/
structure Env where
  fetchCSV : String → Except String RawTable
  fetchJSON : String → Except String (List Commit)
  parse : String → ℕ

def confirmedURL : String :=
  "https://raw.githubusercontent.com/CSSEGISandData/COVID-19/master/csse_covid_19_data/csse_covid_19_time_series/time_series_covid19_confirmed_global.csv"

def deathsURL : String :=
  "https://raw.githubusercontent.com/CSSEGISandData/COVID-19/master/csse_covid_19_data/csse_covid_19_time_series/time_series_covid19_deaths_global.csv"

def recoveredURL : String :=
  "https://raw.githubusercontent.com/CSSEGISandData/COVID-19/master/csse_covid_19_data/csse_covid_19_time_series/time_series_covid19_recovered_global.csv"

def commitsURL : String :=
  "https://api.github.com/repos/CSSEGISandData/COVID-19/commits"

/-- Embedding of `_get_last_commit_date`: fetch the commit list and take
`commit[0][commit][committer][date]`. The source has no exception handler, so
an unreachable endpoint, an empty list and a missing field are all errors that
propagate to the caller. -/
def get_last_commit_date (env : Env) (url : String) : Except String String :=
  match env.fetchJSON url with
  | Except.error e => Except.error e
  | Except.ok [] => Except.error "IndexError: list index out of range"
  | Except.ok (c :: _) =>
      match c.committerDate with
      | none => Except.error "KeyError: date"
      | some d => Except.ok d

/-- The bundle of named datasets returned by `get_datasets`, together with the
last-update string. The active-cases and consolidated identifiers name the
same table, exactly as in the source dictionary. -/
structure Bundle where
  confirmedGlobal : List LongRow
  deathsGlobal : List LongRow
  recoveredGlobal : List LongRow
  confirmedCountry : List KRow
  deathsCountry : List KRow
  recoveredCountry : List KRow
  dailyNewConfirmedCountry : List KRow
  dailyNewDeathsCountry : List KRow
  dailyNewRecoveredCountry : List KRow
  consolidatedCountry : List ConRow
  activeCasesCountry : List ConRow
  lastUpdate : String
deriving DecidableEq, Inhabited

/-- Embedding of `get_datasets` (the body under the memoize decorator): fetch
the three CSVs in the fixed order confirmed, deaths, recovered (the first
failure propagates), clean and aggregate each, derive the daily tables,
consolidate, then fetch the last-commit date (whose failure also propagates,
since the source wraps it in no handler), and return the bundle. -/
def get_datasets (env : Env) : Except String Bundle :=
  match env.fetchCSV confirmedURL with
  | Except.error e => Except.error e
  | Except.ok rawC =>
    match env.fetchCSV deathsURL with
    | Except.error e => Except.error e
    | Except.ok rawD =>
      match env.fetchCSV recoveredURL with
      | Except.error e => Except.error e
      | Except.ok rawR =>
        let cgC := clean_data rawC
        let cgD := clean_data rawD
        let cgR := clean_data rawR
        let ccC := country_data env.parse cgC
        let ccD := country_data env.parse cgD
        let ccR := country_data env.parse cgR
        let dlC := daily_data ccC
        let dlD := daily_data ccD
        let dlR := daily_data ccR
        let consol := consolidate ccC dlC dlD ccD ccR dlR
        match get_last_commit_date env commitsURL with
        | Except.error e => Except.error e
        | Except.ok lastDate =>
            Except.ok
              { confirmedGlobal := cgC
                deathsGlobal := cgD
                recoveredGlobal := cgR
                confirmedCountry := ccC
                deathsCountry := ccD
                recoveredCountry := ccR
                dailyNewConfirmedCountry := dlC
                dailyNewDeathsCountry := dlD
                dailyNewRecoveredCountry := dlR
                consolidatedCountry := consol
                activeCasesCountry := consol
                lastUpdate := lastDate }

/-- The cache TTL: `@cache.memoize(timeout=360)`. -/
def TTL : ℕ := 360

/-- Modelled from the spec: the single cache slot of the memoized,
parameterless `get_datasets`. The memoize implementation itself is library
code (flask_caching), not part of this repository; following section 4.6 of
the spec the slot holds the stored bundle and its storage time, or nothing. -/
structure CacheState where
  entry : Option (Bundle × ℕ)
deriving DecidableEq

/-- Modelled from the spec: one execution of the underlying pipeline on a
cache miss. On success the result is stored with the current time; on failure
the error propagates and the slot is left unchanged (exceptions are not
cached). The third component counts pipeline fetch cycles performed (one). -/
def runPipeline (env : Env) (now : ℕ) (st : CacheState) :
    Except String Bundle × CacheState × ℕ :=
  match get_datasets env with
  | Except.ok b => (Except.ok b, ⟨some (b, now)⟩, 1)
  | Except.error e => (Except.error e, st, 1)

/-- Modelled from the spec: a call to the memoized `get_datasets` at time
`now`. A stored entry younger than `TTL` is returned as is with no fetch;
otherwise the pipeline runs. The third component counts pipeline fetch cycles
performed by this call. -/
def cachedGet (env : Env) (now : ℕ) (st : CacheState) :
    Except String Bundle × CacheState × ℕ :=
  match st.entry with
  | some (b, t) =>
      if now - t < TTL then (Except.ok b, st, 0) else runPipeline env now st
  | none => runPipeline env now st

/-- A cache state that does not serve a stored bundle at time `now`: either
empty or stale (every stored entry has age at least `TTL`). -/
def CacheMiss (st : CacheState) (now : ℕ) : Prop :=
  ∀ p : Bundle × ℕ, st.entry = some p → TTL ≤ now - p.2

/-- The incremental series a cumulative series should round-trip with:
first entry 0, then consecutive differences. -/
def expectedDeltas : List ℚ → List ℚ
  | [] => []
  | q :: rest => 0 :: List.zipWith (fun a b => a - b) rest (q :: rest)

/-- A one-row, one-date raw table used to instantiate theorems. -/
def tinyRaw : RawTable :=
  ⟨["1/2/20"], [⟨"", "A", FVal.num 0, FVal.num 0, [FVal.num 3]⟩]⟩

/-- An environment whose CSV fetches succeed and whose metadata endpoint is
unreachable. -/
def envMetaFail : Env :=
  ⟨fun _ => Except.ok tinyRaw, fun _ => Except.error "unreachable", String.length⟩

/-- An environment whose CSV fetches succeed and whose metadata endpoint
returns an empty commit list. -/
def envMetaEmpty : Env :=
  ⟨fun _ => Except.ok tinyRaw, fun _ => Except.ok [], String.length⟩

/-- An environment where every fetch succeeds. -/
def envOK : Env :=
  ⟨fun _ => Except.ok tinyRaw, fun _ => Except.ok [⟨some "2020-05-01"⟩],
    String.length⟩

/-- An environment whose case-data CSV fetches fail. -/
def envFetchFail : Env :=
  ⟨fun _ => Except.error "boom", fun _ => Except.ok [], String.length⟩

/-- The bundle produced by the successful environment. -/
def okBundle : Bundle := ((get_datasets envOK).toOption).getD default

/-- A one-row table with value 0 used to instantiate the consolidator
theorems. -/
def zKR : List KRow := [⟨"A", 1, FVal.num 0⟩]

/-- The single row of the consolidated table built from `zKR` as confirmed,
deaths and recovered table, with empty delta tables: both ratios are 0 / 0,
hence NaN. -/
def zRow : ConRow :=
  ⟨"A", 1, FVal.num 0, FVal.nan, FVal.nan, FVal.num 0, FVal.num 0, FVal.nan,
    FVal.num 0, FVal.nan, FVal.nan⟩

/-- A one-record long table used to instantiate the aggregator theorem. -/
def wRows : List LongRow :=
  [⟨"", "A", FVal.num 0, FVal.num 0, "d1", FVal.num 3⟩]

/-- The filled diff cell is never NaN: `fillna(0)` replaces exactly the NaN
entries and the other constructors are untouched. -/
theorem fillna0_ne_nan (v : FVal) : fillna0 v ≠ FVal.nan := by
  cases v <;> simp [fillna0]

/-- Every value in a `daily_go` output arises from `fillna0`. -/
theorem daily_go_value_ne_nan :
    ∀ (rows : List KRow) (m : List (String × FVal)),
      ∀ o ∈ daily_go m rows, o.value ≠ FVal.nan := by
  intro rows
  induction rows with
  | nil => intro m o h; simp [daily_go] at h
  | cons r rs ih =>
    intro m o h
    simp only [daily_go, List.mem_cons] at h
    rcases h with h | h
    · subst h; exact fillna0_ne_nan _
    · exact ih _ o h

/-- C10: for every input CountryTable, the DailyDeltaTable produced by
`daily_data` contains no missing values at all: every NaN produced by the
per-country diff (the first row of each country partition as well as any
difference involving a NaN cumulative value) has been replaced by 0. -/
theorem daily_data_no_missing (rows : List KRow) :
    ∀ o ∈ daily_data rows, o.value ≠ FVal.nan :=
  daily_go_value_ne_nan rows []

/-- Witness for C10 at a concrete one-row table. -/
theorem daily_data_no_missing_witness :
    (⟨"A", 1, FVal.num 0⟩ : KRow).value ≠ FVal.nan :=
  daily_data_no_missing [⟨"A", 1, FVal.num 3⟩] ⟨"A", 1, FVal.num 0⟩ (by decide)

/-- Decomposition of membership in the consolidated table: every row is built
by `mkConRow` from an anchor row of the confirmed table and one value
contributed by each of the five joined tables. -/
theorem mem_consolidate {conf dconf ddth dth recov drecov : List KRow}
    {row : ConRow} (h : row ∈ consolidate conf dconf ddth dth recov drecov) :
    ∃ c0 ∈ conf, ∃ v1 ∈ joinVals dconf (c0.country, c0.date),
      ∃ v2 ∈ joinVals ddth (c0.country, c0.date),
        ∃ v3 ∈ joinVals dth (c0.country, c0.date),
          ∃ v4 ∈ joinVals recov (c0.country, c0.date),
            ∃ v5 ∈ joinVals drecov (c0.country, c0.date),
              row = mkConRow c0 v1 v2 v3 v4 v5 := by
  simp only [consolidate, List.mem_flatMap, List.mem_map] at h
  obtain ⟨c0, hc0, v1, hv1, v2, hv2, v3, hv3, v4, hv4, v5, hv5, hrow⟩ := h
  exact ⟨c0, hc0, v1, hv1, v2, hv2, v3, hv3, v4, hv4, v5, hv5, hrow.symm⟩

/-- C3: in the consolidated table, the active-cases column of every row is
exactly the row-wise value of Total Confirmed - Total Deaths - Total
Recovered, including rows where a left-joined table contributed missing (NaN)
values, for which both sides are the same propagated NaN. -/
theorem consolidate_active_cases (conf dconf ddth dth recov drecov : List KRow) :
    ∀ row ∈ consolidate conf dconf ddth dth recov drecov,
      row.totalActive =
        FVal.sub (FVal.sub row.totalConfirmed row.totalDeaths)
          row.totalRecovered := by
  intro row h
  obtain ⟨c0, _, v1, _, v2, _, v3, _, v4, _, v5, _, rfl⟩ := mem_consolidate h
  rfl

/-- Witness for C3 at a concrete input: the confirmed table has one row and
all joined tables are empty, so the joined columns are all NaN. -/
theorem consolidate_active_cases_witness :
    (⟨"A", 1, FVal.num 7, FVal.nan, FVal.nan, FVal.nan, FVal.nan, FVal.nan,
        FVal.nan, FVal.nan, FVal.nan⟩ : ConRow).totalActive =
      FVal.sub (FVal.sub (FVal.num 7) FVal.nan) FVal.nan :=
  consolidate_active_cases [⟨"A", 1, FVal.num 7⟩] [] [] [] [] [] _ (by decide)

/-- The melt output has one record per input row and date column. -/
theorem clean_data_length (t : RawTable) :
    (clean_data t).length = t.rows.length * t.dates.length := by
  simp only [clean_data, List.length_flatMap, Function.comp_def,
    List.length_map, List.map_const', List.sum_replicate, smul_eq_mul,
    List.enum_length]
  exact Nat.mul_comm _ _

/-- C6: for every raw wide table with the fixed identifying columns and its
date columns, the melt output has exactly rows times dates records, every
output record carries the identifying values of an input row verbatim, and
every input row (its empty sub-location included) reappears verbatim whenever
there is at least one date column. -/
theorem clean_data_spec (t : RawTable) :
    (clean_data t).length = t.rows.length * t.dates.length ∧
    (∀ o ∈ clean_data t, ∃ r ∈ t.rows,
      o.province = r.province ∧ o.country = r.country ∧
        o.lat = r.lat ∧ o.lon = r.lon) ∧
    (∀ r ∈ t.rows, t.dates ≠ [] → ∃ o ∈ clean_data t,
      o.province = r.province ∧ o.country = r.country ∧
        o.lat = r.lat ∧ o.lon = r.lon) := by
  refine ⟨clean_data_length t, ?_, ?_⟩
  · intro o ho
    simp only [clean_data, List.mem_flatMap, List.mem_map] at ho
    obtain ⟨jd, _, r, hr, hro⟩ := ho
    subst hro
    exact ⟨r, hr, rfl, rfl, rfl, rfl⟩
  · intro r hr hne
    have henum : t.dates.enum ≠ [] := by
      simpa [List.enum_eq_nil] using hne
    obtain ⟨p, hp⟩ := List.exists_mem_of_ne_nil _ henum
    refine ⟨⟨r.province, r.country, r.lat, r.lon, p.2,
      r.cells.getD p.1 FVal.nan⟩, ?_, rfl, rfl, rfl, rfl⟩
    simp only [clean_data, List.mem_flatMap, List.mem_map]
    exact ⟨p, hp, r, hr, rfl⟩

/-- Witness for C6 at a concrete one-row, one-date table. -/
theorem clean_data_spec_witness :
    (clean_data tinyRaw).length = tinyRaw.rows.length * tinyRaw.dates.length ∧
    (∀ o ∈ clean_data tinyRaw, ∃ r ∈ tinyRaw.rows,
      o.province = r.province ∧ o.country = r.country ∧
        o.lat = r.lat ∧ o.lon = r.lon) ∧
    (∀ r ∈ tinyRaw.rows, tinyRaw.dates ≠ [] → ∃ o ∈ clean_data tinyRaw,
      o.province = r.province ∧ o.country = r.country ∧
        o.lat = r.lat ∧ o.lon = r.lon) :=
  clean_data_spec tinyRaw

/-- Counterexample for C1 as stated: with every CSV fetch succeeding and only
the metadata endpoint unreachable, `get_datasets` does not succeed with a
sentinel timestamp; the metadata error aborts the whole invocation, because
`_get_last_commit_date` is called under no exception handler. -/
theorem get_datasets_meta_abort_counterexample :
    get_datasets envMetaFail = Except.error "unreachable" := by rfl

/-- C1 (amended): if the last-update metadata fetch fails (endpoint
unreachable, empty commit list, or missing field) while the three case-data
fetches succeed, `get_datasets` fails with exactly that metadata error; the
sentinel is never substituted and no bundle is returned. -/
theorem get_datasets_meta_error (env : Env) (e : String)
    (h1 : ∃ t, env.fetchCSV confirmedURL = Except.ok t)
    (h2 : ∃ t, env.fetchCSV deathsURL = Except.ok t)
    (h3 : ∃ t, env.fetchCSV recoveredURL = Except.ok t)
    (hm : get_last_commit_date env commitsURL = Except.error e) :
    get_datasets env = Except.error e := by
  obtain ⟨t1, h1⟩ := h1
  obtain ⟨t2, h2⟩ := h2
  obtain ⟨t3, h3⟩ := h3
  simp [get_datasets, h1, h2, h3, hm]

/-- Witness for the amended C1: a metadata endpoint returning an empty commit
list aborts the pipeline with the index error of `commit[0]`. -/
theorem get_datasets_meta_error_witness :
    get_datasets envMetaEmpty = Except.error "IndexError: list index out of range" :=
  get_datasets_meta_error envMetaEmpty _ ⟨tinyRaw, rfl⟩ ⟨tinyRaw, rfl⟩
    ⟨tinyRaw, rfl⟩ rfl

/-- C9: if fetching any of the three case-data CSV resources fails, the
failure propagates as that same error (no retry, no substitute), the whole
pipeline invocation fails, and a call through the cache at any time at which
the slot is empty or stale performs exactly one fetch cycle, returns the
error, and leaves the cache state unchanged. -/
theorem get_datasets_fetch_error (env : Env) (now : ℕ) (st : CacheState)
    (e : String) (hmiss : CacheMiss st now)
    (h : env.fetchCSV confirmedURL = Except.error e ∨
      ((∃ t, env.fetchCSV confirmedURL = Except.ok t) ∧
        env.fetchCSV deathsURL = Except.error e) ∨
      ((∃ t, env.fetchCSV confirmedURL = Except.ok t) ∧
        (∃ t, env.fetchCSV deathsURL = Except.ok t) ∧
          env.fetchCSV recoveredURL = Except.error e)) :
    get_datasets env = Except.error e ∧
      cachedGet env now st = (Except.error e, st, 1) := by
  have hget : get_datasets env = Except.error e := by
    rcases h with h | ⟨⟨t1, h1⟩, h⟩ | ⟨⟨t1, h1⟩, ⟨t2, h2⟩, h⟩
    · simp [get_datasets, h]
    · simp [get_datasets, h1, h]
    · simp [get_datasets, h1, h2, h]
  refine ⟨hget, ?_⟩
  cases hst : st.entry with
  | none => simp [cachedGet, hst, runPipeline, hget]
  | some p =>
    obtain ⟨b, t⟩ := p
    have hnl : ¬ (now - t < TTL) := not_lt.mpr (hmiss (b, t) hst)
    simp [cachedGet, hst, hnl, runPipeline, hget]

/-- Witness for C9: a failing confirmed-CSV fetch through an empty cache. -/
theorem get_datasets_fetch_error_witness :
    get_datasets envFetchFail = Except.error "boom" ∧
      cachedGet envFetchFail 0 ⟨none⟩ = (Except.error "boom", ⟨none⟩, 1) :=
  get_datasets_fetch_error envFetchFail 0 ⟨none⟩ "boom"
    (fun p hp => by simp at hp) (Or.inl rfl)

/-- C8: the result cache is a single-slot TTL cache with TTL 360: a first
call at `t0` on the empty slot performs one fetch cycle and stores the bundle;
a second call within the TTL returns the identical bundle (hence identical
last-update timestamp and table contents) with zero fetch cycles and an
unchanged slot; a call after TTL expiry performs exactly one new fetch cycle
and returns the freshly recomputed bundle. -/
theorem cache_ttl (env : Env) (t0 t1 t2 : ℕ) (b : Bundle)
    (hok : get_datasets env = Except.ok b)
    (hfresh : t1 - t0 < TTL) (hstale : TTL ≤ t2 - t0) :
    cachedGet env t0 ⟨none⟩ = (Except.ok b, ⟨some (b, t0)⟩, 1) ∧
    cachedGet env t1 ⟨some (b, t0)⟩ = (Except.ok b, ⟨some (b, t0)⟩, 0) ∧
    (cachedGet env t2 ⟨some (b, t0)⟩).2.2 = 1 ∧
    (cachedGet env t2 ⟨some (b, t0)⟩).1 = Except.ok b := by
  have hns : ¬ (t2 - t0 < TTL) := not_lt.mpr hstale
  refine ⟨?_, ?_, ?_, ?_⟩
  · simp [cachedGet, runPipeline, hok]
  · simp [cachedGet, hfresh]
  · simp [cachedGet, hns, runPipeline, hok]
  · simp [cachedGet, hns, runPipeline, hok]

/-- Witness for C8: the successful environment, calls at times 0, 100 and
400 with TTL 360. -/
theorem cache_ttl_witness :
    cachedGet envOK 100 ⟨some (okBundle, 0)⟩ =
      (Except.ok okBundle, ⟨some (okBundle, 0)⟩, 0) ∧
    (cachedGet envOK 400 ⟨some (okBundle, 0)⟩).2.2 = 1 := by
  obtain ⟨_, h2, h3, _⟩ :=
    cache_ttl envOK 0 100 400 okBundle rfl (by decide) (by decide)
  exact ⟨h2, h3⟩

/-- The per-group diff-and-fill sequence starting from a given previous value:
specification function the worker `daily_go` restricts to on one country. -/
def deltaSpec : Option FVal → List FVal → List FVal
  | _, [] => []
  | prev, v :: vs => fillna0 (diffVal prev v) :: deltaSpec (some v) vs

/-- Pushing a pair for the same country makes it the last seen value. -/
theorem lookupLast_cons_self (m : List (String × FVal)) (c : String) (v : FVal) :
    lookupLast ((c, v) :: m) c = some v := by
  simp [lookupLast]

/-- Pushing a pair for a different country does not change the lookup. -/
theorem lookupLast_cons_ne (m : List (String × FVal)) (c cr : String) (v : FVal)
    (h : ¬ cr = c) : lookupLast ((cr, v) :: m) c = lookupLast m c := by
  simp [lookupLast, List.find?_cons_of_neg, h]

/-- Restricted to the rows of one country, `daily_go` computes exactly the
diff-and-fill sequence of the cumulative values of that country, seeded with
the last value recorded for that country in the running state. -/
theorem daily_go_filter (c : String) :
    ∀ (rows : List KRow) (m : List (String × FVal)),
      (((daily_go m rows).filter fun r => decide (r.country = c)).map
          fun r => r.value) =
        deltaSpec (lookupLast m c)
          (((rows.filter fun r => decide (r.country = c)).map
            fun r => r.value)) := by
  intro rows
  induction rows with
  | nil => intro m; simp [daily_go, deltaSpec]
  | cons r rs ih =>
    intro m
    by_cases hc : r.country = c
    · subst hc
      simp only [daily_go, List.filter_cons, decide_eq_true_iff, if_true,
        eq_self_iff_true, List.map_cons, deltaSpec, ih, lookupLast_cons_self]
    · simp only [daily_go, List.filter_cons, decide_eq_true_iff, if_neg hc,
        ih, lookupLast_cons_ne _ _ _ _ hc]

/-- On an all-finite cumulative list, the diff-and-fill sequence seeded with a
finite previous value is the list of consecutive differences. -/
theorem deltaSpec_some_num (qs : List ℚ) :
    ∀ p : ℚ, deltaSpec (some (FVal.num p)) (qs.map FVal.num) =
      (List.zipWith (fun a b => a - b) qs (p :: qs)).map FVal.num := by
  induction qs with
  | nil => intro p; rfl
  | cons q rest ih =>
    intro p
    simp only [List.map_cons, deltaSpec, diffVal, FVal.sub, fillna0,
      List.zipWith_cons_cons, ih q]

/-- On an all-finite cumulative list, the diff-and-fill sequence with no
previous value is the expected incremental series. -/
theorem deltaSpec_none_num (qs : List ℚ) :
    deltaSpec none (qs.map FVal.num) = (expectedDeltas qs).map FVal.num := by
  cases qs with
  | nil => rfl
  | cons q rest =>
    simp only [List.map_cons, deltaSpec, diffVal, fillna0, expectedDeltas,
      deltaSpec_some_num rest q]

/-- The expected incremental series has the length of its input. -/
theorem expectedDeltas_length (qs : List ℚ) :
    (expectedDeltas qs).length = qs.length := by
  cases qs with
  | nil => rfl
  | cons q rest => simp [expectedDeltas, List.length_zipWith]

/-- The first entry of the expected incremental series is 0. -/
theorem expectedDeltas_head (qs : List ℚ) (h : 0 < qs.length) :
    (expectedDeltas qs).get ⟨0, by rw [expectedDeltas_length]; exact h⟩ = 0 := by
  cases qs with
  | nil => simp at h
  | cons q rest => rfl

/-- The cumulative series is recovered from the expected incremental series:
each entry is the previous entry plus the delta. -/
theorem expectedDeltas_succ (qs : List ℚ) (i : ℕ) (h : i + 1 < qs.length) :
    qs.get ⟨i + 1, h⟩ = qs.get ⟨i, by omega⟩ +
      (expectedDeltas qs).get ⟨i + 1, by rw [expectedDeltas_length]; exact h⟩ := by
  cases qs with
  | nil => simp at h
  | cons q rest =>
    simp only [expectedDeltas, List.get_eq_getElem, List.getElem_cons_succ,
      List.getElem_zipWith]
    ring

/-- C2: for every CountryTable input whose rows for country `c` carry the
finite cumulative totals `qs` (in table order), the `daily_data` output rows
for `c` carry exactly the expected incremental series: the first delta is 0
and, for every later index, total equals the previous total plus the delta
(the round-trip law), all in exact rational arithmetic. -/
theorem daily_data_roundtrip (rows : List KRow) (c : String) (qs : List ℚ)
    (hq : ((rows.filter fun r => decide (r.country = c)).map fun r => r.value) =
      qs.map FVal.num) :
    (((daily_data rows).filter fun r => decide (r.country = c)).map
        fun r => r.value) = (expectedDeltas qs).map FVal.num ∧
    (∀ h0 : 0 < qs.length,
      (expectedDeltas qs).get ⟨0, by rw [expectedDeltas_length]; exact h0⟩ = 0) ∧
    (∀ i, ∀ h : i + 1 < qs.length,
      qs.get ⟨i + 1, h⟩ = qs.get ⟨i, by omega⟩ +
        (expectedDeltas qs).get
          ⟨i + 1, by rw [expectedDeltas_length]; exact h⟩) := by
  refine ⟨?_, fun h0 => expectedDeltas_head qs h0,
    fun i h => expectedDeltas_succ qs i h⟩
  rw [daily_data, daily_go_filter c rows [], hq]
  exact deltaSpec_none_num qs

/-- Witness for C2 at a concrete two-country table. -/
theorem daily_data_roundtrip_witness :
    (((daily_data [⟨"A", 1, FVal.num 3⟩, ⟨"B", 1, FVal.num 9⟩,
        ⟨"A", 2, FVal.num 5⟩]).filter fun r => decide (r.country = "A")).map
      fun r => r.value) = (expectedDeltas [3, 5]).map FVal.num :=
  (daily_data_roundtrip [⟨"A", 1, FVal.num 3⟩, ⟨"B", 1, FVal.num 9⟩,
    ⟨"A", 2, FVal.num 5⟩] "A" [3, 5] (by decide)).1

/-- Rounding preserves NaN-ness in both directions. -/
theorem roundTo_eq_nan (d : ℕ) (v : FVal) :
    roundTo d v = FVal.nan ↔ v = FVal.nan := by
  cases v <;> simp [roundTo]

/-- Division of finite values is NaN exactly for 0 / 0; a nonzero numerator
over a zero denominator is a signed infinity instead. -/
theorem div_num_num_eq_nan (a b : ℚ) :
    FVal.div (FVal.num a) (FVal.num b) = FVal.nan ↔ b = 0 ∧ a = 0 := by
  simp only [FVal.div]
  split_ifs with hb ha hpos <;> simp_all

/-- NaN propagates through division on the left. -/
theorem div_nan_left (v : FVal) : FVal.div FVal.nan v = FVal.nan := by
  cases v <;> rfl

/-- NaN propagates through division on the right. -/
theorem div_nan_right (v : FVal) : FVal.div v FVal.nan = FVal.nan := by
  cases v <;> rfl

/-- NaN propagates through addition on the left. -/
theorem add_nan_left (v : FVal) : FVal.add FVal.nan v = FVal.nan := by
  cases v <;> rfl

/-- NaN propagates through addition on the right. -/
theorem add_nan_right (v : FVal) : FVal.add v FVal.nan = FVal.nan := by
  cases v <;> rfl

/-- Addition of finite values is finite. -/
theorem add_num_num (a b : ℚ) :
    FVal.add (FVal.num a) (FVal.num b) = FVal.num (a + b) := rfl

/-- Counterexample for C4 as stated: in the consolidated table built from a
confirmed table with key (A, 1) and value 7 and empty joined tables, the
Death to Cases Ratio is NaN while its denominator Total Confirmed is 7, not
0 — a missing (NaN) joined operand makes the ratio NaN, so NaN is not
equivalent to a zero denominator. -/
theorem consolidate_ratio_nan_counterexample :
    ¬ (∀ row ∈ consolidate [⟨"A", 1, FVal.num 7⟩] [] [] [] [] [],
        (row.deathToCases = FVal.nan ↔ row.totalConfirmed = FVal.num 0)) := by
  decide

/-- C4 (amended): every consolidated row carries exactly the two rounded
ratio columns of the source, computed by total functions (nothing raises);
when the operands of a ratio are present finite numbers the ratio is NaN
exactly when numerator and denominator are both 0 (a zero denominator under a
nonzero numerator gives a signed infinity, not NaN), and any missing (NaN)
operand makes the ratio NaN. -/
theorem consolidate_ratios (conf dconf ddth dth recov drecov : List KRow) :
    ∀ row ∈ consolidate conf dconf ddth dth recov drecov,
      row.shareRecovered = roundTo 2 (FVal.div row.totalRecovered
        (FVal.add row.totalRecovered row.totalDeaths)) ∧
      row.deathToCases = roundTo 3 (FVal.div row.totalDeaths
        row.totalConfirmed) ∧
      (∀ r d : ℚ, row.totalRecovered = FVal.num r →
        row.totalDeaths = FVal.num d →
        (row.shareRecovered = FVal.nan ↔ r + d = 0 ∧ r = 0)) ∧
      (∀ d cq : ℚ, row.totalDeaths = FVal.num d →
        row.totalConfirmed = FVal.num cq →
        (row.deathToCases = FVal.nan ↔ cq = 0 ∧ d = 0)) ∧
      ((row.totalRecovered = FVal.nan ∨ row.totalDeaths = FVal.nan) →
        row.shareRecovered = FVal.nan) ∧
      ((row.totalDeaths = FVal.nan ∨ row.totalConfirmed = FVal.nan) →
        row.deathToCases = FVal.nan) := by
  intro row hrow
  obtain ⟨c0, _, v1, _, v2, _, v3, _, v4, _, v5, _, rfl⟩ := mem_consolidate hrow
  refine ⟨rfl, rfl, ?_, ?_, ?_, ?_⟩
  · intro r d hr hd
    simp only [mkConRow] at hr hd ⊢
    rw [hr, hd, add_num_num, roundTo_eq_nan, div_num_num_eq_nan]
  · intro d cq hd hc
    simp only [mkConRow] at hd hc ⊢
    rw [hd, hc, roundTo_eq_nan, div_num_num_eq_nan]
  · intro hm
    simp only [mkConRow] at hm ⊢
    rcases hm with hm | hm
    · rw [hm, div_nan_left, roundTo_eq_nan]
    · rw [hm, add_nan_right, div_nan_right, roundTo_eq_nan]
  · intro hm
    simp only [mkConRow] at hm ⊢
    rcases hm with hm | hm
    · rw [hm, div_nan_left, roundTo_eq_nan]
    · rw [hm, div_nan_right, roundTo_eq_nan]

/-- Witness for the amended C4: with present finite operands (recovered 3,
deaths 2) the recovered-share is not NaN, matching the characterization. -/
theorem consolidate_ratios_witness :
    (zRow.shareRecovered = FVal.nan ↔ (0 : ℚ) + 0 = 0 ∧ (0 : ℚ) = 0) := by
  have hcons : consolidate zKR [] [] zKR zKR [] = [zRow] := by
    simp [consolidate, zKR, zRow, joinVals, mkConRow, FVal.sub, FVal.div,
      FVal.add, roundTo]
  have hmem : zRow ∈ consolidate zKR [] [] zKR zKR [] := by
    rw [hcons]; exact List.mem_singleton_self _
  exact (consolidate_ratios zKR [] [] zKR zKR [] zRow hmem).2.2.1 0 0 rfl rfl

/-- Under unique keys, at most one row of a table matches a given key. -/
theorem filter_key_length_le_one (tbl : List KRow) (k : String × ℕ)
    (h : (tbl.map keyOf).Nodup) :
    (tbl.filter fun r => decide (r.country = k.1 ∧ r.date = k.2)).length ≤ 1 := by
  induction tbl with
  | nil => simp
  | cons r rs ih =>
    simp only [List.map_cons, List.nodup_cons] at h
    obtain ⟨hnot, hnd⟩ := h
    by_cases hr : r.country = k.1 ∧ r.date = k.2
    · have hnil : (rs.filter fun x => decide (x.country = k.1 ∧ x.date = k.2)) = [] := by
        rw [List.filter_eq_nil_iff]
        intro x hx hpx
        simp only [decide_eq_true_eq] at hpx
        apply hnot
        rw [List.mem_map]
        refine ⟨x, hx, ?_⟩
        simp only [keyOf, hpx.1, hpx.2, hr.1, hr.2]
      have hpr : (decide (r.country = k.1 ∧ r.date = k.2)) = true := by
        simp [hr.1, hr.2]
      rw [List.filter_cons, if_pos hpr, hnil]
      simp
    · simp only [List.filter_cons, decide_eq_true_eq, if_neg hr]
      exact ih hnd

/-- Under unique keys, the left join contributes exactly one value per anchor
key: the matching value or NaN. -/
theorem joinVals_singleton (tbl : List KRow) (k : String × ℕ)
    (h : (tbl.map keyOf).Nodup) : ∃ v, joinVals tbl k = [v] := by
  have hle := filter_key_length_le_one tbl k h
  unfold joinVals
  cases hf : tbl.filter fun r => decide (r.country = k.1 ∧ r.date = k.2) with
  | nil => exact ⟨FVal.nan, by simp [hf]⟩
  | cons x xs =>
    cases xs with
    | nil => exact ⟨x.value, by simp [hf]⟩
    | cons y ys => rw [hf] at hle; simp at hle

/-- A key of `KRow` equals a pair exactly when both components match. -/
theorem keyOf_eq_iff (r : KRow) (k : String × ℕ) :
    keyOf r = k ↔ r.country = k.1 ∧ r.date = k.2 := by
  simp [keyOf, Prod.ext_iff]

/-- A key absent from the joined table contributes the single NaN value. -/
theorem joinVals_absent (tbl : List KRow) (k : String × ℕ)
    (h : ∀ r ∈ tbl, keyOf r ≠ k) : joinVals tbl k = [FVal.nan] := by
  have hnil : (tbl.filter fun r => decide (r.country = k.1 ∧ r.date = k.2)) = [] := by
    rw [List.filter_eq_nil_iff]
    intro r hr hpr
    simp only [decide_eq_true_eq] at hpr
    exact h r hr ((keyOf_eq_iff r k).mpr hpr)
  simp only [joinVals]
  rw [hnil]
  rfl

/-- Under unique keys in the joined tables, the consolidated table has
exactly the key sequence of the anchor confirmed table. -/
theorem consolidate_map_key (conf dconf ddth dth recov drecov : List KRow)
    (h1 : (dconf.map keyOf).Nodup) (h2 : (ddth.map keyOf).Nodup)
    (h3 : (dth.map keyOf).Nodup) (h4 : (recov.map keyOf).Nodup)
    (h5 : (drecov.map keyOf).Nodup) :
    (consolidate conf dconf ddth dth recov drecov).map conKeyOf =
      conf.map keyOf := by
  induction conf with
  | nil => rfl
  | cons c0 cs ih =>
    obtain ⟨w1, hw1⟩ := joinVals_singleton dconf (c0.country, c0.date) h1
    obtain ⟨w2, hw2⟩ := joinVals_singleton ddth (c0.country, c0.date) h2
    obtain ⟨w3, hw3⟩ := joinVals_singleton dth (c0.country, c0.date) h3
    obtain ⟨w4, hw4⟩ := joinVals_singleton recov (c0.country, c0.date) h4
    obtain ⟨w5, hw5⟩ := joinVals_singleton drecov (c0.country, c0.date) h5
    have hstep : consolidate (c0 :: cs) dconf ddth dth recov drecov =
        mkConRow c0 w1 w2 w3 w4 w5 ::
          consolidate cs dconf ddth dth recov drecov := by
      simp only [consolidate, List.flatMap_cons, hw1, hw2, hw3, hw4, hw5,
        List.flatMap_nil, List.append_nil, List.map_cons, List.map_nil,
        List.singleton_append, List.cons_append, List.nil_append]
    rw [hstep, List.map_cons, ih]
    rfl

/-- Every consolidated row whose key is absent from a joined table carries
NaN (missing), not zero, in the columns of that table. -/
theorem consolidate_missing (conf dconf ddth dth recov drecov : List KRow) :
    ∀ row ∈ consolidate conf dconf ddth dth recov drecov,
      ((∀ r ∈ dconf, keyOf r ≠ conKeyOf row) →
        row.dailyNewConfirmed = FVal.nan) ∧
      ((∀ r ∈ ddth, keyOf r ≠ conKeyOf row) → row.dailyNewDeaths = FVal.nan) ∧
      ((∀ r ∈ dth, keyOf r ≠ conKeyOf row) → row.totalDeaths = FVal.nan) ∧
      ((∀ r ∈ recov, keyOf r ≠ conKeyOf row) → row.totalRecovered = FVal.nan) ∧
      ((∀ r ∈ drecov, keyOf r ≠ conKeyOf row) →
        row.dailyNewRecovered = FVal.nan) := by
  intro row hrow
  obtain ⟨c0, _, v1, hv1, v2, hv2, v3, hv3, v4, hv4, v5, hv5, rfl⟩ :=
    mem_consolidate hrow
  have hkey : conKeyOf (mkConRow c0 v1 v2 v3 v4 v5) = (c0.country, c0.date) := rfl
  refine ⟨?_, ?_, ?_, ?_, ?_⟩ <;> intro habs <;> rw [hkey] at habs
  · rw [joinVals_absent _ _ habs] at hv1
    simp only [List.mem_singleton] at hv1
    exact hv1
  · rw [joinVals_absent _ _ habs] at hv2
    simp only [List.mem_singleton] at hv2
    exact hv2
  · rw [joinVals_absent _ _ habs] at hv3
    simp only [List.mem_singleton] at hv3
    exact hv3
  · rw [joinVals_absent _ _ habs] at hv4
    simp only [List.mem_singleton] at hv4
    exact hv4
  · rw [joinVals_absent _ _ habs] at hv5
    simp only [List.mem_singleton] at hv5
    exact hv5

/-- Counterexample for C5 as stated: the consolidated table depends on the
fifth joined table (daily-new-recovered), so it is not the result of four
left joins over the listed order, which could use at most the first four
joined tables; two inputs differing only in the daily-new-recovered table
give different consolidated tables. -/
theorem consolidate_four_joins_counterexample :
    consolidate [⟨"A", 1, FVal.num 10⟩] [⟨"A", 1, FVal.num 1⟩]
        [⟨"A", 1, FVal.num 2⟩] [⟨"A", 1, FVal.num 3⟩] [⟨"A", 1, FVal.num 4⟩]
        [⟨"A", 1, FVal.num 5⟩] ≠
      consolidate [⟨"A", 1, FVal.num 10⟩] [⟨"A", 1, FVal.num 1⟩]
        [⟨"A", 1, FVal.num 2⟩] [⟨"A", 1, FVal.num 3⟩] [⟨"A", 1, FVal.num 4⟩]
        [⟨"A", 1, FVal.num 6⟩] := by
  decide

/-- C5 (amended): the Consolidator builds the consolidated table by five
successive left joins anchored on the confirmed table key set, in the fixed
order daily-new-confirmed, daily-new-deaths, deaths-total, recovered-total,
daily-new-recovered; under unique keys in the joined tables the final key
sequence equals the confirmed table key sequence, and keys absent from a
joined table yield missing (NaN, not zero) values in the columns of that
table. -/
theorem consolidate_left_join_spec (conf dconf ddth dth recov drecov : List KRow)
    (h1 : (dconf.map keyOf).Nodup) (h2 : (ddth.map keyOf).Nodup)
    (h3 : (dth.map keyOf).Nodup) (h4 : (recov.map keyOf).Nodup)
    (h5 : (drecov.map keyOf).Nodup) :
    (consolidate conf dconf ddth dth recov drecov).map conKeyOf =
      conf.map keyOf ∧
    (∀ row ∈ consolidate conf dconf ddth dth recov drecov,
      ((∀ r ∈ dconf, keyOf r ≠ conKeyOf row) →
        row.dailyNewConfirmed = FVal.nan) ∧
      ((∀ r ∈ ddth, keyOf r ≠ conKeyOf row) → row.dailyNewDeaths = FVal.nan) ∧
      ((∀ r ∈ dth, keyOf r ≠ conKeyOf row) → row.totalDeaths = FVal.nan) ∧
      ((∀ r ∈ recov, keyOf r ≠ conKeyOf row) → row.totalRecovered = FVal.nan) ∧
      ((∀ r ∈ drecov, keyOf r ≠ conKeyOf row) →
        row.dailyNewRecovered = FVal.nan)) :=
  ⟨consolidate_map_key conf dconf ddth dth recov drecov h1 h2 h3 h4 h5,
    consolidate_missing conf dconf ddth dth recov drecov⟩

/-- Witness for the amended C5 at concrete tables: key preservation through
the five joins with one populated joined table. -/
theorem consolidate_left_join_spec_witness :
    (consolidate zKR [⟨"A", 1, FVal.num 1⟩] [] [] [] []).map conKeyOf =
      zKR.map keyOf :=
  (consolidate_left_join_spec zKR [⟨"A", 1, FVal.num 1⟩] [] [] [] []
    (by simp) (by simp) (by simp) (by simp) (by simp)).1

/-- The sort comparison as a proposition: strictly smaller country, or same
country and date not larger. -/
theorem keyLE_iff (a b : KRow) : keyLE a b = true ↔
    a.country < b.country ∨ (a.country = b.country ∧ a.date ≤ b.date) := by
  simp [keyLE]

/-- The sort comparison is transitive. -/
theorem keyLE_trans (a b c : KRow) (hab : keyLE a b = true)
    (hbc : keyLE b c = true) : keyLE a c = true := by
  rw [keyLE_iff] at hab hbc ⊢
  rcases hab with h | ⟨he, hd⟩
  · rcases hbc with h2 | ⟨he2, hd2⟩
    · exact Or.inl (lt_trans h h2)
    · exact Or.inl (lt_of_lt_of_eq h he2)
  · rcases hbc with h2 | ⟨he2, hd2⟩
    · exact Or.inl (lt_of_eq_of_lt he h2)
    · exact Or.inr ⟨he.trans he2, le_trans hd hd2⟩

/-- The sort comparison is total. -/
theorem keyLE_total (a b : KRow) : (keyLE a b || keyLE b a) = true := by
  rw [Bool.or_eq_true, keyLE_iff, keyLE_iff]
  rcases lt_trichotomy a.country b.country with h | h | h
  · exact Or.inl (Or.inl h)
  · rcases Nat.le_total a.date b.date with hd | hd
    · exact Or.inl (Or.inr ⟨h, hd⟩)
    · exact Or.inr (Or.inr ⟨h.symm, hd⟩)
  · exact Or.inr (Or.inl h)

/-- The group keys are exactly the (country, date) pairs of the input. -/
theorem mem_groupKeys (rows : List LongRow) (k : String × String) :
    k ∈ groupKeys rows ↔ ∃ r ∈ rows, r.country = k.1 ∧ r.date = k.2 := by
  simp [groupKeys, List.mem_dedup, List.mem_map, Prod.ext_iff]

/-- C7: for every long-table input and a date parser injective on the dates
present, the `country_data` output has pairwise distinct (country, parsed
date) keys, its key set is exactly the key set of the input, it is sorted
ascending by country then parsed date, every row value is the group sum over
the sub-locations of its country and date, and for a (country, date) group
with a single record carrying a finite value the aggregated value equals that
value. -/
theorem country_data_spec (parse : String → ℕ) (rows : List LongRow)
    (hinj : ∀ r1 ∈ rows, ∀ r2 ∈ rows,
      parse r1.date = parse r2.date → r1.date = r2.date) :
    ((country_data parse rows).map keyOf).Nodup ∧
    (∀ c n, (c, n) ∈ (country_data parse rows).map keyOf ↔
      ∃ r ∈ rows, r.country = c ∧ parse r.date = n) ∧
    List.Pairwise (fun a b => keyLE a b = true) (country_data parse rows) ∧
    (∀ row ∈ country_data parse rows, ∃ ds, parse ds = row.date ∧
      (∃ r ∈ rows, r.country = row.country ∧ r.date = ds) ∧
      row.value = groupSum rows (row.country, ds)) ∧
    (∀ c ds q r0,
      (rows.filter fun r => decide (r.country = c ∧ r.date = ds)) = [r0] →
      r0.cases = FVal.num q →
      ∀ row ∈ country_data parse rows, row.country = c →
        row.date = parse ds → row.value = FVal.num q) := by
  have hperm : (country_data parse rows).Perm
      ((groupKeys rows).map fun k =>
        (⟨k.1, parse k.2, groupSum rows k⟩ : KRow)) :=
    List.mergeSort_perm _ keyLE
  have hkeysnodup : (((groupKeys rows).map fun k =>
      (⟨k.1, parse k.2, groupSum rows k⟩ : KRow)).map keyOf).Nodup := by
    rw [List.map_map]
    refine List.Nodup.map_on ?_ (List.nodup_dedup _)
    intro x hx y hy hxy
    simp only [Function.comp, keyOf, Prod.mk.injEq] at hxy
    obtain ⟨r1, hr1, hr1c, hr1d⟩ := (mem_groupKeys rows x).mp hx
    obtain ⟨r2, hr2, hr2c, hr2d⟩ := (mem_groupKeys rows y).mp hy
    have hpp : parse r1.date = parse r2.date := by
      rw [hr1d, hr2d]
      exact hxy.2
    have hdd : r1.date = r2.date := hinj r1 hr1 r2 hr2 hpp
    have hx2y2 : x.2 = y.2 := by rw [← hr1d, hdd, hr2d]
    rcases x with ⟨x1, x2⟩
    rcases y with ⟨y1, y2⟩
    simp only [Prod.mk.injEq]
    exact ⟨hxy.1, hx2y2⟩
  have h1 : ((country_data parse rows).map keyOf).Nodup :=
    ((hperm.map keyOf).symm).nodup hkeysnodup
  have h4 : ∀ row ∈ country_data parse rows, ∃ ds, parse ds = row.date ∧
      (∃ r ∈ rows, r.country = row.country ∧ r.date = ds) ∧
      row.value = groupSum rows (row.country, ds) := by
    intro row hrow
    have hmem : row ∈ (groupKeys rows).map fun k =>
        (⟨k.1, parse k.2, groupSum rows k⟩ : KRow) := hperm.mem_iff.mp hrow
    rw [List.mem_map] at hmem
    obtain ⟨k, hk, hke⟩ := hmem
    obtain ⟨r, hr, hrc, hrd⟩ := (mem_groupKeys rows k).mp hk
    subst hke
    exact ⟨k.2, rfl, ⟨r, hr, hrc, hrd⟩, rfl⟩
  refine ⟨h1, ?_, ?_, h4, ?_⟩
  · intro c n
    rw [List.Perm.mem_iff (hperm.map keyOf), List.map_map]
    simp only [List.mem_map, Function.comp, keyOf]
    constructor
    · rintro ⟨k, hk, hke⟩
      obtain ⟨r, hr, hrc, hrd⟩ := (mem_groupKeys rows k).mp hk
      simp only [Prod.mk.injEq] at hke
      refine ⟨r, hr, ?_, ?_⟩
      · rw [hrc, hke.1]
      · rw [hrd, hke.2]
    · rintro ⟨r, hr, hrc, hrn⟩
      refine ⟨(r.country, r.date),
        (mem_groupKeys rows _).mpr ⟨r, hr, rfl, rfl⟩, ?_⟩
      simp [hrc, hrn]
  · exact List.sorted_mergeSort keyLE_trans keyLE_total _
  · intro c ds q r0 hfilter hq row hrow hrc hrd
    obtain ⟨ds2, hds2, ⟨r, hr, hrcc, hrdd⟩, hval⟩ := h4 row hrow
    have hr0mem : r0 ∈ rows.filter fun r => decide (r.country = c ∧ r.date = ds) := by
      rw [hfilter]
      exact List.mem_singleton_self _
    rw [List.mem_filter] at hr0mem
    obtain ⟨hr0rows, hr0p⟩ := hr0mem
    simp only [decide_eq_true_eq] at hr0p
    have hpp : parse r.date = parse r0.date := by
      rw [hrdd, hr0p.2, hds2, hrd]
    have hdd : r.date = r0.date := hinj r hr r0 hr0rows hpp
    have hds : ds2 = ds := by rw [← hrdd, hdd, hr0p.2]
    rw [hval, hrc, hds, groupSum,
      (hfilter : (rows.filter fun r =>
        decide (r.country = (c, ds).1 ∧ r.date = (c, ds).2)) = [r0])]
    simp [gsum, hq, FVal.add]

/-- Witness for C7 at a concrete one-row table with the length parser. -/
theorem country_data_spec_witness :
    ((country_data String.length wRows).map keyOf).Nodup :=
  (country_data_spec String.length wRows (by decide)).1
